/-
Verification of the SuperLig RAG data loader and pipeline glue code.

The development shallowly embeds the two source files that carry the
logic under scrutiny:
  * data_loader.py   — preprocess_text, chunk_text, create_documents
  * rag_pipeline.py  — TurkishRAGPipeline.query

Text is modelled as List Char.  Python int arithmetic is modelled with
Int (cursor positions in chunk_text can become negative and Python's
negative-index slicing then matters, so slices are modelled with full
Python semantics).  The while-loop of chunk_text is modelled with an
explicit fuel parameter: a result of `none` means the loop has not
finished within the given number of iterations, and a loop that yields
`none` for every fuel value never terminates.

The float comparison `last_sentence_end > chunk_size * 0.7` of the
source is modelled by the exact integer comparison
`10 * last_sentence_end > 7 * chunk_size`.  The two comparisons agree at
every integer argument for each window size whose carving behaviour this
development actually computes — 100 and 500, where the IEEE double value
of `chunk_size * 0.7` is exactly 70.0 and 350.0 (and also 3, used only
in a non-termination argument, where the double is 2.0999999999999996
and no integer separates it from 21/10).  At other window sizes the
double can round below the exact 7/10 fraction (at window 90 it is
62.99999999999999), so statements about the snapping threshold are made
only at window 500; every lemma that quantifies over arbitrary window
sizes uses only the bound `end ≤ start + chunk_size`, which holds in
both branches of the comparison and in the source regardless of the
float's rounding direction.
-/
import Mathlib

set_option maxRecDepth 4000

namespace SuperLig

/-! ## Character classes (data_loader.py, regular expressions) -/

/-- Whitespace as matched by the regex class `\s` (ASCII part; the
Python class additionally matches rare Unicode spaces, which do not
occur in this development). -/
def isPySpace (c : Char) : Bool :=
  c = ' ' || c = '\t' || c = '\n' || c = '\r' || c = '\x0b' || c = '\x0c'

/-- Word characters as matched by `\w` (ASCII part: letters, digits,
underscore; the non-ASCII letters kept by the source's character class
are listed separately in `isAllowedChar`). -/
def isWordChar (c : Char) : Bool :=
  ('a' ≤ c && c ≤ 'z') || ('A' ≤ c && c ≤ 'Z') || ('0' ≤ c && c ≤ '9') || c = '_'

/-- The characters kept by `re.sub(r'[^\w\sçğıöşüÇĞIİÖŞÜ.,!?()-]', '', text)`
in `preprocess_text`: word characters, whitespace, the Turkish letters
and the punctuation marks `. , ! ? ( ) -`. -/
def isAllowedChar (c : Char) : Bool :=
  isWordChar c || isPySpace c ||
  c = 'ç' || c = 'ğ' || c = 'ı' || c = 'ö' || c = 'ş' || c = 'ü' ||
  c = 'Ç' || c = 'Ğ' || c = 'İ' || c = 'Ö' || c = 'Ş' || c = 'Ü' ||
  c = '.' || c = ',' || c = '!' || c = '?' || c = '(' || c = ')' || c = '-'

/-! ## TextNormalizer (data_loader.py, preprocess_text) -/

/-- `re.sub(r'\s+', ' ', text)`: replace every maximal run of
whitespace characters by one single space. -/
def collapseWs : List Char → List Char
  | [] => []
  | [c] => if isPySpace c then [' '] else [c]
  | c₁ :: c₂ :: cs =>
    if isPySpace c₁ then
      if isPySpace c₂ then collapseWs (c₂ :: cs)
      else ' ' :: collapseWs (c₂ :: cs)
    else c₁ :: collapseWs (c₂ :: cs)

/-- Python `str.strip()`: remove leading and trailing whitespace. -/
def trim (l : List Char) : List Char :=
  ((l.dropWhile isPySpace).reverse.dropWhile isPySpace).reverse

/-- `SuperLigDataLoader.preprocess_text`: collapse whitespace runs,
remove the characters outside the allowed class, then strip surrounding
whitespace — in that order, exactly as in the source. -/
def preprocess_text (t : List Char) : List Char :=
  trim ((collapseWs t).filter isAllowedChar)

/-- Two adjacent characters are never both whitespace. -/
def wsAdj (a b : Char) : Prop := isPySpace a = false ∨ isPySpace b = false

/-- Shape of whitespace-collapsed text: no two adjacent whitespace
characters, and every whitespace character is a plain space. -/
def wsNormal (l : List Char) : Prop :=
  l.Chain' wsAdj ∧ ∀ c ∈ l, isPySpace c = true → c = ' '

/-! ## Chunker (data_loader.py, chunk_text) -/

/-- Python slice `l[a:b]` for int indices: negative indices count from
the end of the list and out-of-range indices are clamped. -/
def pySlice (l : List Char) (a b : Int) : List Char :=
  let n : Int := l.length
  let a' : Int := if a < 0 then max (n + a) 0 else min a n
  let b' : Int := if b < 0 then max (n + b) 0 else min b n
  (l.take b'.toNat).drop a'.toNat

/-- Python `str.rfind(ch)` for a single character: the highest index at
which `ch` occurs, or `-1` when it does not occur. -/
def rfind (l : List Char) (ch : Char) : Int :=
  match l with
  | [] => -1
  | c :: cs =>
    let r := rfind cs ch
    if 0 ≤ r then r + 1 else if c = ch then 0 else -1

/-- The three sentence-end characters `chunk_text` searches for. -/
def sentencePunct (c : Char) : Bool := c = '.' || c = '?' || c = '!'

/-- `last_sentence_end = max(chunk.rfind('.'), chunk.rfind('?'),
chunk.rfind('!'))`. -/
def lastPunct (w : List Char) : Int :=
  max (rfind w '.') (max (rfind w '?') (rfind w '!'))

/-- One iteration of the carving loop of `chunk_text`: take the window
`text[start : start + chunk_size]`; for a non-final window
(`end < len(text)`) find the rightmost sentence punctuation and, when it
lies strictly past 70 percent of the window size, cut the chunk just
after it and move `end` accordingly.  Returns the (not yet stripped)
chunk together with the final value of `end`.  The integer comparison
`10 * lastPunct chunk > 7 * cs` models the source's float comparison
exactly at the window sizes instantiated here (see the file header);
results about the threshold's boundary are stated only at `cs = 500`. -/
def carve (text : List Char) (start : Int) (cs : Nat) : List Char × Int :=
  let ed : Int := start + cs
  let chunk := pySlice text start ed
  if ed < (text.length : Int) then
    if 10 * lastPunct chunk > 7 * (cs : Int) then
      (chunk.take (lastPunct chunk + 1).toNat, start + lastPunct chunk + 1)
    else (chunk, ed)
  else (chunk, ed)

/-- The `while start < len(text)` loop of `chunk_text`, with an explicit
fuel bound on the number of iterations: `none` means the loop has not
finished within `fuel` iterations.  Each iteration appends the stripped
chunk and sets `start = end - overlap`; the loop stops when the updated
cursor reaches `len(text)` (the trailing `if start >= len(text): break`
together with the loop condition). -/
def chunkLoopF (text : List Char) (cs ov : Nat) :
    Nat → Int → List (List Char) → Option (List (List Char))
  | 0, _, _ => none
  | fuel + 1, start, acc =>
    if start < (text.length : Int) then
      let p := carve text start cs
      let acc' := acc ++ [trim p.1]
      let start' := p.2 - (ov : Int)
      if (text.length : Int) ≤ start' then some acc'
      else chunkLoopF text cs ov fuel start' acc'
    else some acc

/-- `SuperLigDataLoader.chunk_text` (fuel-bounded): a text no longer
than the window is returned as a single chunk, unstripped; otherwise the
carving loop runs.  `some cs` means the Python call returns that chunk
list; `none` means the loop runs for more than `fuel` iterations. -/
def chunk_text (text : List Char) (cs ov fuel : Nat) : Option (List (List Char)) :=
  if text.length ≤ cs then some [text] else chunkLoopF text cs ov fuel 0 []

/-- The call to `chunk_text` never returns: no iteration bound suffices. -/
def chunkNeverReturns (text : List Char) (cs ov : Nat) : Prop :=
  ∀ fuel, chunk_text text cs ov fuel = none

/-- 501 spaces: a normalizable text one character longer than the
default window. -/
def spaces501 : List Char := List.replicate 501 ' '

/-- 150 characters with a period at index 71: with window 100 and
overlap 99 the carving cursor cycles between 0 and -27 forever. -/
def cycleText : List Char := List.replicate 71 'a' ++ '.' :: List.replicate 78 'a'

/-- 601 characters whose only sentence punctuation sits at index 350,
which is exactly 70 percent of the default window 500. -/
def punctAt70 : List Char := List.replicate 350 'a' ++ '.' :: List.replicate 250 'a'

/-- 601 characters whose only sentence punctuation sits at index 351,
strictly past 70 percent of the default window 500. -/
def punctAt351 : List Char :=
  List.replicate 351 'a' ++ '.' :: List.replicate 249 'a'

/-- 502 characters whose normalization has length 501 and carries a
double space at index 450 (the removed '@' leaves two adjacent spaces
behind), so the second carved chunk strips to 49 characters and is
discarded. -/
def mixedText : List Char :=
  List.replicate 450 'a' ++ ' ' :: '@' :: ' ' :: List.replicate 49 'a'

/-- `preprocess_text mixedText`. -/
def mixedNorm : List Char :=
  List.replicate 450 'a' ++ ' ' :: ' ' :: List.replicate 49 'a'

/-- The first chunk carved from mixedNorm (500 characters, kept). -/
def mixedChunk0 : List Char :=
  List.replicate 450 'a' ++ ' ' :: ' ' :: List.replicate 48 'a'

/-- The second window carved from mixedNorm (51 characters; strips to
49 characters and is then discarded by create_documents). -/
def mixedTail : List Char := ' ' :: ' ' :: List.replicate 49 'a'

/-! ## DocumentAssembler (data_loader.py, create_documents) -/

/-- A value stored under a key of a dataset record: either a string, or
a non-string value together with its Python truthiness. -/
inductive Val where
  | vstr (s : List Char)
  | vother (truthy : Bool)
deriving DecidableEq

/-- A dataset record: key/value pairs in insertion order (Python dict). -/
abbrev Item := List (String × Val)

/-- A record whose only field is a `text` field holding mixedText. -/
def mixedItem : Item := [("text", Val.vstr mixedText)]

/-- `k in item` / `item[k]` (first binding of the key). -/
def getField (item : Item) (k : String) : Option Val :=
  (item.find? fun p => p.1 == k).map (·.2)

/-- Python truthiness of a record value: a string is truthy iff it is
non-empty. -/
def pyTruthy : Val → Bool
  | .vstr s => !s.isEmpty
  | .vother t => t

/-- Body-text resolution of `create_documents`: the `if 'text' in item:
... elif ...` chain keys on the PRESENCE of the key (the value may be
empty); when none of the four keys is present, fall back to the first
string-valued field longer than 100 characters; otherwise the text
stays `None`. -/
def resolveText (item : Item) : Option Val :=
  match getField item "text" with
  | some v => some v
  | none =>
    match getField item "content" with
    | some v => some v
    | none =>
      match getField item "article" with
      | some v => some v
      | none =>
        match getField item "body" with
        | some v => some v
        | none =>
          (item.find? fun p =>
            match p.2 with
            | .vstr s => decide (100 < s.length)
            | .vother _ => false).map (·.2)

/-- One emitted haystack `Document`: the chunk content together with the
metadata fields written by `create_documents`. -/
structure PyDoc where
  content : List Char
  title : Val
  url : Val
  chunk_id : Nat
  total_chunks : Nat
deriving DecidableEq

/-- `item.get('title', 'Unknown')`. -/
def titleOf (item : Item) : Val := (getField item "title").getD (.vstr "Unknown".toList)

/-- `item.get('url', '')`. -/
def urlOf (item : Item) : Val := (getField item "url").getD (.vstr [])

/-- The `for i, chunk in enumerate(chunks)` loop of `create_documents`:
skip chunks whose stripped length is below 50, and give each surviving
chunk the metadata `chunk_id = i` (its index in the FULL chunk list) and
`total_chunks = len(chunks)` (the FULL chunk count). -/
def emitDocs (item : Item) (chunks : List (List Char)) : List PyDoc :=
  chunks.enum.filterMap fun p =>
    if (trim p.2).length < 50 then none
    else some ⟨p.2, titleOf item, urlOf item, p.1, chunks.length⟩

/-- The chunk list `create_documents` computes for one record (empty
when the record is skipped).  The fuel `t.length + 1` always suffices at
the default parameters, see `chunk_term_aux` below. -/
def docChunks (item : Item) : List (List Char) :=
  match resolveText item with
  | some (.vstr s) =>
    if pyTruthy (.vstr s) then
      let t := preprocess_text s
      (chunk_text t 500 50 (t.length + 1)).getD []
    else []
  | _ => []

/-- The per-record body of `create_documents`: resolve the text, skip
falsy records (`if not text: continue`), normalize, chunk with the
default parameters, emit the documents.  `none` models the `TypeError`
raised when a truthy non-string value reaches `preprocess_text`. -/
def itemDocs (item : Item) : Option (List PyDoc) :=
  match resolveText item with
  | none => some []
  | some v =>
    if pyTruthy v then
      match v with
      | .vother _ => none
      | .vstr s =>
        let t := preprocess_text s
        let chunks := (chunk_text t 500 50 (t.length + 1)).getD []
        some (emitDocs item chunks)
    else some []

/-- `SuperLigDataLoader.create_documents` over the whole record list;
`none` models an exception escaping from some record. -/
def create_documents : List Item → Option (List PyDoc)
  | [] => some []
  | item :: rest => do
    let ds ← itemDocs item
    let rest' ← create_documents rest
    pure (ds ++ rest')

/-! ## RAG pipeline (rag_pipeline.py, TurkishRAGPipeline.query)

The retrieval pipeline and the Gemini model are external collaborators;
they are passed in as `Except`-valued arguments (`Except.error` models a
raised exception).  Similarity scores are floats that the code only
passes through via `getattr(doc, 'score', 0.0)`, so the model is
parametric in the score type, with `z` standing for the default `0.0`. -/

/-- A document coming back from the retriever: content plus the two
meta entries and the optional score attribute that `query` reads. -/
structure HsDoc (σ : Type) where
  content : String
  title : Option String
  url : Option String
  score : Option σ

/-- One entry of the `retrieved_docs` list built by `query`. -/
structure RetrievedDoc (σ : Type) where
  content : String
  title : String
  url : String
  score : σ
deriving DecidableEq

/-- The dictionary returned by `query`: exactly the keys `answer`,
`documents` and `query`. -/
structure QueryResult (σ : Type) where
  answer : String
  documents : List (RetrievedDoc σ)
  query : String
deriving DecidableEq

/-- The formatting loop of `query`: `doc.content`,
`doc.meta.get('title', 'Unknown')`, `doc.meta.get('url', '')`,
`getattr(doc, 'score', 0.0)`. -/
def formatDoc {σ : Type} (z : σ) (d : HsDoc σ) : RetrievedDoc σ :=
  ⟨d.content, d.title.getD "Unknown", d.url.getD "", d.score.getD z⟩

/-- The f-string prompt assembled by `query` around the retrieved
contents (joined with blank lines) and the question. -/
def buildPrompt {σ : Type} (question : String) (docs : List (RetrievedDoc σ)) : String :=
  "Sen Türkçe bir futbol asistanısın. Aşağıdaki bağlam bilgilerini kullanarak kullanıcının sorusunu Türkçe olarak yanıtla.\n\nBağlam:\n"
    ++ String.intercalate "\n\n" (docs.map fun d => d.content)
    ++ "\n\nSoru: " ++ question ++ "\n\nYanıt:"

/-- The fallback answer used when no API key is configured. -/
def noKeyMsg (n : Nat) : String :=
  "API key bulunamadı. " ++ toString n ++ " belge bulundu. API key ayarlayarak tam yanıt alabilirsiniz."

/-- The answer produced by the catch-all `except` branch of `query`. -/
def errMsg (e : String) : String :=
  "Üzgünüm, sorunuzu yanıtlayamadım. Hata: " ++ e

/-- `TurkishRAGPipeline.query`: run the retrieval pipeline, format the
documents, generate the answer (or the no-key fallback), and return the
three-key result; any exception along the way is caught and converted
into the apology answer with an EMPTY document list. -/
def query {σ : Type} (z : σ) (run : Except String (List (HsDoc σ)))
    (generate : String → Except String String)
    (hasModel : Bool) (question : String) : QueryResult σ :=
  match (do
      let docs ← run
      let retrieved := docs.map (formatDoc z)
      let answer ←
        if hasModel then generate (buildPrompt question retrieved)
        else Except.ok (noKeyMsg retrieved.length)
      Except.ok (QueryResult.mk answer retrieved question)
    : Except String (QueryResult σ)) with
  | .ok r => r
  | .error e => ⟨errMsg e, [], question⟩

/-! ## Helper lemmas about rfind -/

theorem rfind_neg_of_not_mem {l : List Char} {ch : Char} (h : ch ∉ l) :
    rfind l ch = -1 := by
  induction l with
  | nil => rfl
  | cons c cs ih =>
    have hc : c ≠ ch := fun e => h (e ▸ List.mem_cons_self c cs)
    have hcs : ch ∉ cs := fun m => h (List.mem_cons_of_mem c m)
    simp [rfind, ih hcs, hc]

theorem neg_one_le_rfind (l : List Char) (ch : Char) : -1 ≤ rfind l ch := by
  induction l with
  | nil => simp [rfind]
  | cons c cs ih =>
    simp only [rfind]
    split
    · omega
    · split <;> omega

theorem rfind_lt_length (l : List Char) (ch : Char) :
    rfind l ch < (l.length : Int) := by
  induction l with
  | nil => simp [rfind]
  | cons c cs ih =>
    simp only [rfind, List.length_cons]
    split
    · push_cast
      omega
    · split <;> push_cast <;> omega

theorem rfind_cons (c : Char) (l : List Char) (ch : Char) :
    rfind (c :: l) ch =
      if 0 ≤ rfind l ch then rfind l ch + 1 else if c = ch then 0 else -1 := rfl

theorem rfind_append (l₁ l₂ : List Char) (ch : Char) :
    rfind (l₁ ++ l₂) ch =
      if 0 ≤ rfind l₂ ch then (l₁.length : Int) + rfind l₂ ch else rfind l₁ ch := by
  induction l₁ with
  | nil =>
    have hle := neg_one_le_rfind l₂ ch
    simp only [List.nil_append, List.length_nil]
    split
    · omega
    · simp only [rfind]
      omega
  | cons c cs ih =>
    rw [List.cons_append, rfind_cons, ih]
    by_cases h₂ : 0 ≤ rfind l₂ ch
    · have h₃ : (0 : Int) ≤ (cs.length : Int) + rfind l₂ ch := by positivity
      rw [if_pos h₂, if_pos h₂, if_pos h₃, List.length_cons]
      push_cast
      ring
    · rw [if_neg h₂, if_neg h₂, rfind_cons]

theorem le_rfind_of_get? {l : List Char} {i : Nat} {ch : Char}
    (h : l.get? i = some ch) : (i : Int) ≤ rfind l ch := by
  induction l generalizing i with
  | nil => simp at h
  | cons c cs ih =>
    cases i with
    | zero =>
      simp only [List.get?] at h
      have hc : c = ch := by injection h
      simp only [rfind]
      split
      · omega
      · simp [hc]
    | succ i =>
      simp only [List.get?] at h
      have hi := ih h
      have h0 : (0 : Int) ≤ rfind cs ch := le_trans (by positivity) hi
      simp only [rfind, h0, if_pos]
      push_cast
      omega

theorem rfind_le_of_no_later {l : List Char} {i : Int} {ch : Char}
    (hi : -1 ≤ i) (h : ∀ j : Nat, i < (j : Int) → l.get? j ≠ some ch) :
    rfind l ch ≤ i := by
  induction l generalizing i with
  | nil => simpa [rfind] using hi
  | cons c cs ih =>
    rcases (by omega : i = -1 ∨ 0 ≤ i) with h0 | h0
    · subst h0
      have hc : c ≠ ch := by
        intro e
        exact h 0 (by omega) (by simp [e])
      have hcs : rfind cs ch ≤ -1 := by
        apply ih le_rfl
        intro j _ hj
        exact h (j + 1) (by push_cast; omega) (by simpa using hj)
      simp only [rfind]
      have hneg : ¬ (0 : Int) ≤ rfind cs ch := by omega
      simp [hneg, hc]
    · have hcs : rfind cs ch ≤ i - 1 := by
        apply ih (by omega)
        intro j hj hget
        exact h (j + 1) (by push_cast at hj ⊢; omega) (by simpa using hget)
      simp only [rfind]
      split
      · omega
      · split <;> omega

/-! ## Helper lemmas about trim -/

theorem head?_dropWhile_not (p : Char → Bool) (l : List Char) :
    ((l.dropWhile p).head?.all fun c => !p c) = true := by
  induction l with
  | nil => rfl
  | cons c cs ih =>
    by_cases h : p c
    · simpa [List.dropWhile_cons, h] using ih
    · simp [List.dropWhile_cons, h]

theorem dropWhile_eq_self_of_head {p : Char → Bool} {l : List Char}
    (h : (l.head?.all fun c => !p c) = true) : l.dropWhile p = l := by
  cases l with
  | nil => rfl
  | cons c cs =>
    simp only [List.head?_cons, Option.all_some, Bool.not_eq_true'] at h
    simp [List.dropWhile_cons, h]

theorem trim_eq_self_of_ends {l : List Char}
    (h₁ : (l.head?.all fun c => !isPySpace c) = true)
    (h₂ : (l.getLast?.all fun c => !isPySpace c) = true) : trim l = l := by
  unfold trim
  rw [dropWhile_eq_self_of_head h₁,
    dropWhile_eq_self_of_head (by rwa [List.head?_reverse]), List.reverse_reverse]

theorem dropWhile_replicate_true {p : Char → Bool} {a : Char} (h : p a = true)
    (n : Nat) : (List.replicate n a).dropWhile p = [] := by
  induction n with
  | zero => rfl
  | succ n ih => simp [List.replicate_succ, List.dropWhile_cons, h, ih]

theorem trim_replicate_space (n : Nat) : trim (List.replicate n ' ') = [] := by
  unfold trim
  rw [dropWhile_replicate_true (by decide) n]
  rfl

theorem trim_length_le (l : List Char) : (trim l).length ≤ l.length := by
  unfold trim
  calc ((l.dropWhile isPySpace).reverse.dropWhile isPySpace).reverse.length
      = ((l.dropWhile isPySpace).reverse.dropWhile isPySpace).length := by
        rw [List.length_reverse]
    _ ≤ (l.dropWhile isPySpace).reverse.length :=
        (List.dropWhile_sublist _).length_le
    _ = (l.dropWhile isPySpace).length := by rw [List.length_reverse]
    _ ≤ l.length := (List.dropWhile_sublist _).length_le

theorem mem_trim {c : Char} {l : List Char} (h : c ∈ trim l) : c ∈ l := by
  unfold trim at h
  rw [List.mem_reverse] at h
  have h₂ := (List.dropWhile_sublist (l := (l.dropWhile isPySpace).reverse)
    (p := isPySpace)).mem h
  rw [List.mem_reverse] at h₂
  exact (List.dropWhile_sublist (l := l) (p := isPySpace)).mem h₂

theorem trim_trim (l : List Char) : trim (trim l) = trim l := by
  rcases hB : ((l.dropWhile isPySpace).reverse.dropWhile isPySpace) with _ | ⟨b, bs⟩
  · have hnil : trim l = [] := by
      unfold trim
      rw [hB]
      rfl
    rw [hnil]
    rfl
  · apply trim_eq_self_of_ends
    · show ((trim l).head?.all fun c => !isPySpace c) = true
      unfold trim
      rw [List.head?_reverse, hB]
      have hsuf : (b :: bs) <:+ (l.dropWhile isPySpace).reverse := by
        rw [← hB]
        exact List.dropWhile_suffix _
      obtain ⟨t, ht⟩ := hsuf
      have h1 : (t ++ b :: bs).getLast? = (b :: bs).getLast? :=
        List.getLast?_append_of_ne_nil _ (by simp)
      rw [ht] at h1
      rw [← h1, List.getLast?_reverse]
      exact head?_dropWhile_not _ _
    · show ((trim l).getLast?.all fun c => !isPySpace c) = true
      unfold trim
      rw [List.getLast?_reverse]
      have hh := head?_dropWhile_not isPySpace (l.dropWhile isPySpace).reverse
      rwa [hB] at hh ⊢

/-! ## Helper lemmas about pySlice -/

theorem pySlice_zero_take (l : List Char) (k : Nat) (h : (k : Int) ≤ l.length) :
    pySlice l 0 k = l.take k := by
  unfold pySlice
  have h1 : ¬ ((0 : Int) < 0) := by omega
  have h2 : ¬ ((k : Int) < 0) := by omega
  simp only [h1, if_false, h2, min_eq_left h]
  simp

theorem pySlice_eq_nil_of {l : List Char} {a b : Int} (ha : a < 0) (hb : 0 ≤ b)
    (hba : b ≤ (l.length : Int) + a) : pySlice l a b = [] := by
  unfold pySlice
  have h2 : ¬ (b < 0) := by omega
  simp only [ha, if_pos, h2, if_false]
  apply List.drop_eq_nil_of_le
  rw [List.length_take]
  omega

theorem pySlice_length_le (l : List Char) (a : Int) (k : Nat) :
    (pySlice l a (a + k)).length ≤ k := by
  unfold pySlice
  rw [List.length_drop, List.length_take]
  split <;> split <;> omega

/-! ## Helper lemmas about collapseWs and wsNormal -/

theorem head?_collapseWs_of_not_space {c : Char} (h : isPySpace c = false)
    (cs : List Char) : (collapseWs (c :: cs)).head? = some c := by
  cases cs with
  | nil => simp [collapseWs, h]
  | cons c₂ cs' => simp [collapseWs, h]

theorem collapseWs_two_ws {c₁ c₂ : Char} (h₁ : isPySpace c₁ = true)
    (h₂ : isPySpace c₂ = true) (cs : List Char) :
    collapseWs (c₁ :: c₂ :: cs) = collapseWs (c₂ :: cs) := by
  simp [collapseWs, h₁, h₂]

theorem collapseWs_ws_nws {c₁ c₂ : Char} (h₁ : isPySpace c₁ = true)
    (h₂ : isPySpace c₂ = false) (cs : List Char) :
    collapseWs (c₁ :: c₂ :: cs) = ' ' :: collapseWs (c₂ :: cs) := by
  simp [collapseWs, h₁, h₂]

theorem collapseWs_nws {c₁ : Char} (h₁ : isPySpace c₁ = false)
    (c₂ : Char) (cs : List Char) :
    collapseWs (c₁ :: c₂ :: cs) = c₁ :: collapseWs (c₂ :: cs) := by
  simp [collapseWs, h₁]

theorem collapseWs_chain : ∀ l : List Char, (collapseWs l).Chain' wsAdj
  | [] => by simp [collapseWs]
  | [c] => by
    cases h : isPySpace c <;> simp [collapseWs, h]
  | c₁ :: c₂ :: cs => by
    have hch := collapseWs_chain (c₂ :: cs)
    cases h₁ : isPySpace c₁ with
    | false =>
      rw [collapseWs_nws h₁]
      refine List.chain'_cons'.mpr ⟨?_, hch⟩
      intro b _
      exact Or.inl h₁
    | true =>
      cases h₂ : isPySpace c₂ with
      | true => rw [collapseWs_two_ws h₁ h₂]; exact hch
      | false =>
        rw [collapseWs_ws_nws h₁ h₂]
        refine List.chain'_cons'.mpr ⟨?_, hch⟩
        intro b hb
        rw [head?_collapseWs_of_not_space h₂ cs, Option.mem_some_iff] at hb
        subst hb
        exact Or.inr h₂

theorem collapseWs_ws_mem :
    ∀ l : List Char, ∀ c ∈ collapseWs l, isPySpace c = true → c = ' '
  | [] => by simp [collapseWs]
  | [c] => by
    intro d hd hws
    cases h : isPySpace c <;> rw [show collapseWs [c] = if isPySpace c then [' '] else [c] from rfl, h] at hd
    · simp at hd
      subst hd
      rw [hws] at h
      cases h
    · simp at hd
      exact hd
  | c₁ :: c₂ :: cs => by
    intro d hd hws
    cases h₁ : isPySpace c₁ with
    | false =>
      rw [collapseWs_nws h₁, List.mem_cons] at hd
      rcases hd with hd | hd
      · subst hd
        rw [hws] at h₁
        cases h₁
      · exact collapseWs_ws_mem (c₂ :: cs) d hd hws
    | true =>
      cases h₂ : isPySpace c₂ with
      | true =>
        rw [collapseWs_two_ws h₁ h₂] at hd
        exact collapseWs_ws_mem (c₂ :: cs) d hd hws
      | false =>
        rw [collapseWs_ws_nws h₁ h₂, List.mem_cons] at hd
        rcases hd with hd | hd
        · exact hd
        · exact collapseWs_ws_mem (c₂ :: cs) d hd hws

theorem collapseWs_mem : ∀ l : List Char, ∀ c ∈ collapseWs l, c = ' ' ∨ c ∈ l
  | [] => by simp [collapseWs]
  | [c] => by
    intro d hd
    cases h : isPySpace c <;> rw [show collapseWs [c] = if isPySpace c then [' '] else [c] from rfl, h] at hd
    · simp at hd
      exact Or.inr (by simp [hd])
    · simp at hd
      exact Or.inl hd
  | c₁ :: c₂ :: cs => by
    intro d hd
    have step : d ∈ collapseWs (c₂ :: cs) → d = ' ' ∨ d ∈ c₁ :: c₂ :: cs := by
      intro hmem
      rcases collapseWs_mem (c₂ :: cs) d hmem with h | h
      · exact Or.inl h
      · exact Or.inr (List.mem_cons_of_mem _ h)
    cases h₁ : isPySpace c₁ with
    | false =>
      rw [collapseWs_nws h₁, List.mem_cons] at hd
      rcases hd with hd | hd
      · exact Or.inr (by simp [hd])
      · exact step hd
    | true =>
      cases h₂ : isPySpace c₂ with
      | true =>
        rw [collapseWs_two_ws h₁ h₂] at hd
        exact step hd
      | false =>
        rw [collapseWs_ws_nws h₁ h₂, List.mem_cons] at hd
        rcases hd with hd | hd
        · exact Or.inl hd
        · exact step hd

theorem collapseWs_wsNormal (l : List Char) : wsNormal (collapseWs l) :=
  ⟨collapseWs_chain l, collapseWs_ws_mem l⟩

theorem wsNormal_tail {c : Char} {cs : List Char} (h : wsNormal (c :: cs)) :
    wsNormal cs :=
  ⟨h.1.tail, fun d hd => h.2 d (List.mem_cons_of_mem _ hd)⟩

theorem collapseWs_eq_self : ∀ l : List Char, wsNormal l → collapseWs l = l
  | [], _ => rfl
  | [c], h => by
    by_cases hc : isPySpace c
    · have : c = ' ' := h.2 c (by simp) hc
      simp [collapseWs, hc, this]
    · simp [collapseWs, hc]
  | c₁ :: c₂ :: cs, h => by
    have htl := collapseWs_eq_self (c₂ :: cs) (wsNormal_tail h)
    by_cases h₁ : isPySpace c₁
    · have hadj : wsAdj c₁ c₂ := (List.chain'_cons.mp h.1).1
      have h₂ : isPySpace c₂ = false := by
        rcases hadj with ha | ha
        · rw [h₁] at ha
          cases ha
        · exact ha
      have hsp : c₁ = ' ' := h.2 c₁ (by simp) h₁
      simp [collapseWs, h₁, h₂, htl, hsp]
    · simp [collapseWs, h₁, htl]

theorem trim_prefix_dropWhile (l : List Char) :
    trim l <+: l.dropWhile isPySpace := by
  unfold trim
  rw [← List.reverse_suffix, List.reverse_reverse]
  exact List.dropWhile_suffix _

theorem wsNormal_trim {l : List Char} (h : wsNormal l) : wsNormal (trim l) := by
  have hinf : trim l <:+: l :=
    List.IsInfix.trans (List.IsPrefix.isInfix (trim_prefix_dropWhile l))
      (List.IsSuffix.isInfix (List.dropWhile_suffix _))
  have hchain := List.Chain'.infix h.1 hinf
  exact ⟨hchain, fun c hc => h.2 c (mem_trim hc)⟩

/-! ## Helper lemmas about carve and the chunk loop -/

theorem lastPunct_of_not_mem {w : List Char} (h₁ : '.' ∉ w) (h₂ : '?' ∉ w)
    (h₃ : '!' ∉ w) : lastPunct w = -1 := by
  unfold lastPunct
  rw [rfind_neg_of_not_mem h₁, rfind_neg_of_not_mem h₂, rfind_neg_of_not_mem h₃]
  rfl

theorem lastPunct_replicate {c : Char} (hdot : '.' ≠ c) (hq : '?' ≠ c)
    (hb : '!' ≠ c) (n : Nat) : lastPunct (List.replicate n c) = -1 := by
  refine lastPunct_of_not_mem ?_ ?_ ?_ <;> simp [List.mem_replicate] <;> intro _
  · exact hdot
  · exact hq
  · exact hb

theorem lastPunct_aaa_dot (m k : Nat) :
    lastPunct (List.replicate m 'a' ++ '.' :: List.replicate k 'a') = m := by
  have hk : rfind (List.replicate k 'a') '.' = -1 :=
    rfind_neg_of_not_mem (by simp [List.mem_replicate])
  have hmid : rfind ('.' :: List.replicate k 'a') '.' = 0 := by
    rw [rfind_cons, hk]
    norm_num
  have hdot : rfind (List.replicate m 'a' ++ '.' :: List.replicate k 'a') '.'
      = (m : Int) := by
    rw [rfind_append, hmid]
    simp
  have hq : rfind (List.replicate m 'a' ++ '.' :: List.replicate k 'a') '?' = -1 :=
    rfind_neg_of_not_mem (by simp [List.mem_replicate])
  have hb : rfind (List.replicate m 'a' ++ '.' :: List.replicate k 'a') '!' = -1 :=
    rfind_neg_of_not_mem (by simp [List.mem_replicate])
  unfold lastPunct
  rw [hdot, hq, hb]
  have : (0 : Int) ≤ (m : Int) := by positivity
  omega

theorem carve_final {text : List Char} {start : Int} {cs : Nat}
    (h : (text.length : Int) ≤ start + cs) :
    carve text start cs = (pySlice text start (start + cs), start + cs) := by
  unfold carve
  rw [if_neg (by omega)]

theorem carve_nosnap {text : List Char} {start : Int} {cs : Nat}
    (hlt : start + (cs : Int) < text.length)
    (hls : 10 * lastPunct (pySlice text start (start + cs)) ≤ 7 * (cs : Int)) :
    carve text start cs = (pySlice text start (start + cs), start + cs) := by
  unfold carve
  rw [if_pos hlt, if_neg (by omega)]

theorem carve_snap {text : List Char} {start : Int} {cs : Nat}
    (hlt : start + (cs : Int) < text.length)
    (hls : 7 * (cs : Int) < 10 * lastPunct (pySlice text start (start + cs))) :
    carve text start cs =
      ((pySlice text start (start + cs)).take
          (lastPunct (pySlice text start (start + cs)) + 1).toNat,
        start + lastPunct (pySlice text start (start + cs)) + 1) := by
  unfold carve
  rw [if_pos hlt, if_pos (by omega)]

theorem lastPunct_lt_length (w : List Char) : lastPunct w < (w.length : Int) := by
  unfold lastPunct
  have h₁ := rfind_lt_length w '.'
  have h₂ := rfind_lt_length w '?'
  have h₃ := rfind_lt_length w '!'
  omega

theorem neg_one_le_lastPunct (w : List Char) : -1 ≤ lastPunct w := by
  unfold lastPunct
  have h₁ := neg_one_le_rfind w '.'
  omega

theorem carve_end_ub (text : List Char) (start : Int) (cs : Nat) :
    (carve text start cs).2 ≤ start + cs := by
  have hlp := lastPunct_lt_length (pySlice text start (start + cs))
  have hlen := pySlice_length_le text start cs
  simp only [carve]
  split
  · split
    · simp only
      omega
    · simp only
      omega
  · simp only
    omega

theorem carve_end_lb500 (text : List Char) (start : Int) :
    start + 352 ≤ (carve text start 500).2 := by
  simp only [carve]
  split
  · split
    · next h =>
      simp only
      omega
    · simp only
      omega
  · simp only
    omega

theorem chunkLoop_stuck {cs ov : Nat} (hcsov : cs ≤ ov) (text : List Char) :
    ∀ fuel (start : Int) acc, start < (text.length : Int) →
      chunkLoopF text cs ov fuel start acc = none := by
  intro fuel
  induction fuel with
  | zero => intro start acc _; rfl
  | succ fuel ih =>
    intro start acc hlt
    have hub := carve_end_ub text start cs
    have hlt' : (carve text start cs).2 - (ov : Int) < text.length := by omega
    simp only [chunkLoopF]
    rw [if_pos hlt, if_neg (by omega)]
    exact ih _ _ hlt'

theorem chunk_term_aux (text : List Char) :
    ∀ (fuel : Nat) (start : Int) (acc : List (List Char)),
      (text.length : Int) ≤ start + 302 * (fuel : Int) →
      ∃ r, chunkLoopF text 500 50 (fuel + 1) start acc = some r := by
  intro fuel
  induction fuel with
  | zero =>
    intro start acc hle
    refine ⟨acc, ?_⟩
    simp only [chunkLoopF]
    rw [if_neg (by omega)]
  | succ fuel ih =>
    intro start acc hle
    by_cases hlt : start < (text.length : Int)
    · have hlb := carve_end_lb500 text start
      simp only [chunkLoopF]
      rw [if_pos hlt]
      by_cases hdone : (text.length : Int) ≤ (carve text start 500).2 - ((50 : Nat) : Int)
      · rw [if_pos hdone]
        exact ⟨_, rfl⟩
      · rw [if_neg hdone]
        exact ih _ _ (by omega)
    · refine ⟨acc, ?_⟩
      simp only [chunkLoopF]
      rw [if_neg hlt]

theorem stuck_of_overlap_ge {text : List Char} {cs ov : Nat} (hcsov : cs ≤ ov)
    (hlen : cs < text.length) : chunkNeverReturns text cs ov := by
  intro fuel
  unfold chunk_text
  rw [if_neg (by omega)]
  exact chunkLoop_stuck hcsov text fuel 0 [] (by omega)

/-! ## The carving cursor can cycle: cycleText with window 100, overlap 99 -/

theorem cycleText_length : cycleText.length = 150 := by
  simp [cycleText]

theorem carve_cycle0 :
    carve cycleText 0 100 =
      ((List.replicate 71 'a' ++ '.' :: List.replicate 28 'a').take 72, 72) := by
  have hlen : (cycleText.length : Int) = 150 := by
    rw [cycleText_length]
    norm_num
  have hlt : (0 : Int) + ((100 : Nat) : Int) < (cycleText.length : Int) := by omega
  have hwin : pySlice cycleText 0 ((0 : Int) + ((100 : Nat) : Int)) =
      List.replicate 71 'a' ++ '.' :: List.replicate 28 'a' := by
    have h100 : ((0 : Int) + ((100 : Nat) : Int)) = ((100 : Nat) : Int) := by
      norm_num
    rw [h100, pySlice_zero_take cycleText 100 (by omega)]
    rw [cycleText, List.take_append_eq_append_take, List.take_replicate,
      List.length_replicate]
    norm_num
  have hlp : lastPunct (pySlice cycleText 0 ((0 : Int) + ((100 : Nat) : Int))) = 71 := by
    rw [hwin]
    exact lastPunct_aaa_dot 71 28
  have hsnap := @carve_snap cycleText 0 100 hlt
    (by rw [hlp]; norm_num)
  rw [hsnap, hlp, hwin]
  rw [show ((71 : Int) + 1).toNat = 72 by decide]
  norm_num

theorem cycle_stuck : ∀ (fuel : Nat) (start : Int) (acc : List (List Char)),
    -27 ≤ start → start ≤ 0 →
    chunkLoopF cycleText 100 99 fuel start acc = none := by
  intro fuel
  induction fuel with
  | zero => intro start acc _ _; rfl
  | succ fuel ih =>
    intro start acc h₁ h₂
    have hlen : (cycleText.length : Int) = 150 := by
      rw [cycleText_length]
      norm_num
    have hlt : start < (cycleText.length : Int) := by omega
    simp only [chunkLoopF]
    rw [if_pos hlt]
    rcases eq_or_lt_of_le h₂ with h0 | h0
    · subst h0
      rw [carve_cycle0]
      simp only
      rw [if_neg (by omega)]
      exact ih _ _ (by omega) (by omega)
    · have hsl : pySlice cycleText start (start + ((100 : Nat) : Int)) = [] := by
        apply pySlice_eq_nil_of h0 (by omega)
        omega
      have hcv : carve cycleText start 100 = ([], start + ((100 : Nat) : Int)) := by
        have h := @carve_nosnap cycleText start 100
          (by omega) (by rw [hsl]; norm_num [show lastPunct ([] : List Char) = -1 from rfl])
        rw [hsl] at h
        exact h
      rw [hcv]
      simp only
      rw [if_neg (by omega)]
      exact ih _ _ (by omega) (by omega)

theorem cycleText_never : chunkNeverReturns cycleText 100 99 := by
  intro fuel
  unfold chunk_text
  rw [if_neg (by rw [cycleText_length]; norm_num)]
  exact cycle_stuck fuel 0 [] (by norm_num) (by norm_num)

/-! ## The all-space 501-character text produces two empty chunks -/

theorem spaces501_length : spaces501.length = 501 := by
  simp [spaces501]

theorem carve_spaces0 : carve spaces501 0 500 = (List.replicate 500 ' ', 500) := by
  have hlen : (spaces501.length : Int) = 501 := by
    rw [spaces501_length]
    norm_num
  have hlt : (0 : Int) + ((500 : Nat) : Int) < (spaces501.length : Int) := by omega
  have hwin : pySlice spaces501 0 ((0 : Int) + ((500 : Nat) : Int)) =
      List.replicate 500 ' ' := by
    have h500 : ((0 : Int) + ((500 : Nat) : Int)) = ((500 : Nat) : Int) := by
      norm_num
    rw [h500, pySlice_zero_take spaces501 500 (by omega)]
    rw [spaces501, List.take_replicate]
    norm_num
  have hlp : lastPunct (pySlice spaces501 0 ((0 : Int) + ((500 : Nat) : Int))) = -1 := by
    rw [hwin]
    exact lastPunct_replicate (by decide) (by decide) (by decide) 500
  have h := @carve_nosnap spaces501 0 500 hlt
    (by rw [hlp]; norm_num)
  rw [hwin] at h
  rw [h]
  norm_num

theorem pySlice_drop {l : List Char} {a b : Int} (h0 : 0 ≤ a)
    (ha : a ≤ (l.length : Int)) (hb : (l.length : Int) ≤ b) :
    pySlice l a b = l.drop a.toNat := by
  unfold pySlice
  have h1 : ¬ a < 0 := by omega
  have h2 : ¬ b < 0 := by omega
  simp only [h1, if_false, h2, min_eq_left ha, min_eq_right hb]
  rw [Int.toNat_natCast, List.take_length]

theorem carve_spaces450 :
    carve spaces501 450 500 = (List.replicate 51 ' ', 950) := by
  have hlen : (spaces501.length : Int) = 501 := by
    rw [spaces501_length]
    norm_num
  have hge : (spaces501.length : Int) ≤ 450 + ((500 : Nat) : Int) := by omega
  have h := @carve_final spaces501 450 500 hge
  have hsl : pySlice spaces501 450 (450 + ((500 : Nat) : Int)) =
      List.replicate 51 ' ' := by
    rw [pySlice_drop (by norm_num) (by omega) (by omega)]
    rw [spaces501, List.drop_replicate]
    decide
  rw [hsl] at h
  rw [h]
  norm_num

theorem chunkLoopF_succ (text : List Char) (cs ov fuel : Nat) (start : Int)
    (acc : List (List Char)) :
    chunkLoopF text cs ov (fuel + 1) start acc =
      if start < (text.length : Int) then
        if (text.length : Int) ≤ (carve text start cs).2 - (ov : Int) then
          some (acc ++ [trim (carve text start cs).1])
        else chunkLoopF text cs ov fuel ((carve text start cs).2 - (ov : Int))
          (acc ++ [trim (carve text start cs).1])
      else some acc := rfl

theorem chunkText_spaces : chunk_text spaces501 500 50 502 = some [[], []] := by
  have hlen : (spaces501.length : Int) = 501 := by
    rw [spaces501_length]
    norm_num
  unfold chunk_text
  rw [if_neg (by rw [spaces501_length]; norm_num)]
  rw [show (502 : Nat) = 501 + 1 by norm_num, chunkLoopF_succ]
  rw [if_pos (by omega)]
  rw [carve_spaces0]
  simp only [trim_replicate_space]
  rw [if_neg (by omega)]
  rw [show (501 : Nat) = 500 + 1 by norm_num, chunkLoopF_succ]
  rw [if_pos (by omega)]
  rw [show ((500 : Int) - ((50 : Nat) : Int)) = 450 by norm_num, carve_spaces450]
  simp only [trim_replicate_space]
  rw [if_pos (by omega)]
  rfl

/-! ## Normalizing and chunking mixedText -/

theorem collapseWs_cons_nws {c : Char} (h : isPySpace c = false) (l : List Char) :
    collapseWs (c :: l) = c :: collapseWs l := by
  cases l with
  | nil => simp [collapseWs, h]
  | cons c₂ cs => simp [collapseWs, h]

theorem collapseWs_replicate_append {a : Char} (h : isPySpace a = false)
    (n : Nat) (l : List Char) :
    collapseWs (List.replicate n a ++ l) = List.replicate n a ++ collapseWs l := by
  induction n with
  | zero => simp
  | succ n ih => simp [List.replicate_succ, collapseWs_cons_nws h, ih]

theorem head?_replicate_succ (a : Char) (n : Nat) :
    (List.replicate (n + 1) a).head? = some a := by
  rw [List.replicate_succ]
  rfl

theorem getLast?_replicate_succ (a : Char) (n : Nat) :
    (List.replicate (n + 1) a).getLast? = some a := by
  rw [List.replicate_succ']
  exact List.getLast?_concat _

theorem collapseWs_replicate {a : Char} (h : isPySpace a = false) (n : Nat) :
    collapseWs (List.replicate n a) = List.replicate n a := by
  have h2 := collapseWs_replicate_append h n []
  rw [List.append_nil] at h2
  rw [h2]
  simp [collapseWs]

theorem collapseWs_space_replicate_succ {a : Char} (ha : isPySpace a = false)
    (n : Nat) :
    collapseWs (' ' :: List.replicate (n + 1) a) = ' ' :: List.replicate (n + 1) a := by
  rw [List.replicate_succ, collapseWs_ws_nws (by decide) ha, collapseWs_cons_nws ha,
    collapseWs_replicate ha]

theorem collapseWs_mixedText : collapseWs mixedText = mixedText := by
  unfold mixedText
  rw [collapseWs_replicate_append (by decide)]
  rw [collapseWs_ws_nws (by decide) (by decide)]
  rw [collapseWs_cons_nws (by decide)]
  rw [show (49 : Nat) = 48 + 1 by norm_num]
  rw [collapseWs_space_replicate_succ (by decide)]

theorem filter_mixedText : mixedText.filter isAllowedChar = mixedNorm := by
  unfold mixedText mixedNorm
  rw [List.filter_append]
  have h₁ : (List.replicate 450 'a').filter isAllowedChar = List.replicate 450 'a' :=
    List.filter_eq_self.mpr (by intro a ha; rw [List.eq_of_mem_replicate ha]; decide)
  have h₂ : (List.replicate 49 'a').filter isAllowedChar = List.replicate 49 'a' :=
    List.filter_eq_self.mpr (by intro a ha; rw [List.eq_of_mem_replicate ha]; decide)
  rw [h₁]
  simp only [List.filter_cons]
  rw [if_pos (by decide), if_neg (show ¬ isAllowedChar '@' = true by decide),
    if_pos (by decide), h₂]

theorem trim_mixedNorm : trim mixedNorm = mixedNorm := by
  apply trim_eq_self_of_ends
  · unfold mixedNorm
    rw [show (450 : Nat) = 449 + 1 by norm_num, List.replicate_succ, List.cons_append]
    rfl
  · unfold mixedNorm
    rw [List.getLast?_append_of_ne_nil _ (by simp)]
    rw [show (' ' :: ' ' :: List.replicate 49 'a')
          = [' ', ' '] ++ List.replicate 49 'a' from rfl]
    rw [List.getLast?_append_of_ne_nil _ (by simp)]
    rw [show (49 : Nat) = 48 + 1 by norm_num, getLast?_replicate_succ]
    rfl

theorem preprocess_mixedText : preprocess_text mixedText = mixedNorm := by
  unfold preprocess_text
  rw [collapseWs_mixedText, filter_mixedText, trim_mixedNorm]

theorem mixedNorm_length : mixedNorm.length = 501 := by
  simp [mixedNorm]

theorem carve_mixed0 : carve mixedNorm 0 500 = (mixedChunk0, 500) := by
  have hlen : (mixedNorm.length : Int) = 501 := by
    rw [mixedNorm_length]
    norm_num
  have hlt : (0 : Int) + ((500 : Nat) : Int) < (mixedNorm.length : Int) := by omega
  have hwin : pySlice mixedNorm 0 ((0 : Int) + ((500 : Nat) : Int)) = mixedChunk0 := by
    have h500 : ((0 : Int) + ((500 : Nat) : Int)) = ((500 : Nat) : Int) := by
      norm_num
    rw [h500, pySlice_zero_take mixedNorm 500 (by omega)]
    rw [mixedNorm, mixedChunk0, List.take_append_eq_append_take, List.take_replicate,
      List.length_replicate]
    norm_num
  have hlp : lastPunct (pySlice mixedNorm 0 ((0 : Int) + ((500 : Nat) : Int))) = -1 := by
    rw [hwin]
    apply lastPunct_of_not_mem <;>
      · simp only [mixedChunk0, List.mem_append, List.mem_replicate, List.mem_cons]
        decide
  have h := @carve_nosnap mixedNorm 0 500 hlt
    (by rw [hlp]; norm_num)
  rw [hwin] at h
  rw [h]
  norm_num

theorem carve_mixed450 : carve mixedNorm 450 500 = (mixedTail, 950) := by
  have hlen : (mixedNorm.length : Int) = 501 := by
    rw [mixedNorm_length]
    norm_num
  have hge : (mixedNorm.length : Int) ≤ 450 + ((500 : Nat) : Int) := by omega
  have h := @carve_final mixedNorm 450 500 hge
  have hsl : pySlice mixedNorm 450 (450 + ((500 : Nat) : Int)) = mixedTail := by
    rw [pySlice_drop (by norm_num) (by omega) (by omega)]
    rw [show ((450 : Int).toNat) = 450 by decide]
    rw [mixedNorm, mixedTail, List.drop_append_eq_append_drop, List.drop_replicate,
      List.length_replicate]
    norm_num
  rw [hsl] at h
  rw [h]
  norm_num

theorem trim_mixedChunk0 : trim mixedChunk0 = mixedChunk0 := by
  apply trim_eq_self_of_ends
  · unfold mixedChunk0
    rw [show (450 : Nat) = 449 + 1 by norm_num, List.replicate_succ, List.cons_append]
    rfl
  · unfold mixedChunk0
    rw [List.getLast?_append_of_ne_nil _ (by simp)]
    rw [show (' ' :: ' ' :: List.replicate 48 'a')
          = [' ', ' '] ++ List.replicate 48 'a' from rfl]
    rw [List.getLast?_append_of_ne_nil _ (by simp)]
    rw [show (48 : Nat) = 47 + 1 by norm_num, getLast?_replicate_succ]
    rfl

theorem dropWhile_replicate_a :
    (List.replicate 49 'a').dropWhile isPySpace = List.replicate 49 'a' := by
  apply dropWhile_eq_self_of_head
  rw [show (49 : Nat) = 48 + 1 by norm_num, head?_replicate_succ]
  rfl

theorem trim_mixedTail : trim mixedTail = List.replicate 49 'a' := by
  have h1 : mixedTail.dropWhile isPySpace = List.replicate 49 'a' := by
    unfold mixedTail
    rw [List.dropWhile_cons, if_pos (by decide), List.dropWhile_cons,
      if_pos (by decide)]
    exact dropWhile_replicate_a
  unfold trim
  rw [h1, List.reverse_replicate, dropWhile_replicate_a, List.reverse_replicate]

theorem chunkText_mixed :
    chunk_text mixedNorm 500 50 502 = some [mixedChunk0, List.replicate 49 'a'] := by
  have hlen : (mixedNorm.length : Int) = 501 := by
    rw [mixedNorm_length]
    norm_num
  unfold chunk_text
  rw [if_neg (by rw [mixedNorm_length]; norm_num)]
  rw [show (502 : Nat) = 501 + 1 by norm_num, chunkLoopF_succ]
  rw [if_pos (by omega)]
  rw [carve_mixed0]
  simp only [trim_mixedChunk0]
  rw [if_neg (by omega)]
  rw [show (501 : Nat) = 500 + 1 by norm_num, chunkLoopF_succ]
  rw [if_pos (by omega)]
  rw [show ((500 : Int) - ((50 : Nat) : Int)) = 450 by norm_num, carve_mixed450]
  simp only [trim_mixedTail]
  rw [if_pos (by omega)]
  rfl

/-! ## Helper lemmas about emitDocs, itemDocs and create_documents -/

theorem emitDocs_nil (item : Item) : emitDocs item [] = [] := rfl

theorem mem_emitDocs {item : Item} {chunks : List (List Char)} {d : PyDoc}
    (h : d ∈ emitDocs item chunks) :
    chunks[d.chunk_id]? = some d.content ∧ d.total_chunks = chunks.length ∧
      50 ≤ (trim d.content).length := by
  unfold emitDocs at h
  rw [List.mem_filterMap] at h
  obtain ⟨⟨i, c⟩, hp, hf⟩ := h
  by_cases hlt : (trim c).length < 50
  · rw [if_pos hlt] at hf
    cases hf
  · rw [if_neg hlt] at hf
    injection hf with hf
    subst hf
    refine ⟨List.mk_mem_enum_iff_getElem?.mp hp, rfl, ?_⟩
    show 50 ≤ (trim c).length
    omega

theorem itemDocs_none {item : Item} (h : resolveText item = none) :
    itemDocs item = some [] := by
  unfold itemDocs
  rw [h]

theorem itemDocs_vstr {item : Item} {s : List Char}
    (h : resolveText item = some (.vstr s)) :
    itemDocs item =
      if pyTruthy (.vstr s) then
        some (emitDocs item
          ((chunk_text (preprocess_text s) 500 50 ((preprocess_text s).length + 1)).getD []))
      else some [] := by
  unfold itemDocs
  rw [h]

theorem itemDocs_vother {item : Item} {t : Bool}
    (h : resolveText item = some (.vother t)) :
    itemDocs item = if t then none else some [] := by
  unfold itemDocs
  rw [h]
  cases t <;> rfl

theorem docChunks_none {item : Item} (h : resolveText item = none) :
    docChunks item = [] := by
  unfold docChunks
  rw [h]

theorem docChunks_vother {item : Item} {t : Bool}
    (h : resolveText item = some (.vother t)) : docChunks item = [] := by
  unfold docChunks
  rw [h]

theorem docChunks_vstr {item : Item} {s : List Char}
    (h : resolveText item = some (.vstr s)) :
    docChunks item =
      if pyTruthy (.vstr s) then
        (chunk_text (preprocess_text s) 500 50 ((preprocess_text s).length + 1)).getD []
      else [] := by
  unfold docChunks
  rw [h]

theorem itemDocs_eq {item : Item} {docs : List PyDoc}
    (h : itemDocs item = some docs) :
    docs = emitDocs item (docChunks item) := by
  cases hres : resolveText item with
  | none =>
    rw [itemDocs_none hres] at h
    injection h with h
    rw [← h, docChunks_none hres, emitDocs_nil]
  | some v =>
    cases v with
    | vother t =>
      rw [itemDocs_vother hres] at h
      cases t with
      | true =>
        rw [if_pos rfl] at h
        cases h
      | false =>
        rw [if_neg (by decide)] at h
        injection h with h
        rw [← h, docChunks_vother hres, emitDocs_nil]
    | vstr s =>
      rw [itemDocs_vstr hres] at h
      rw [docChunks_vstr hres]
      by_cases htr : pyTruthy (Val.vstr s) = true
      · rw [if_pos htr] at h
        rw [if_pos htr]
        injection h with h
        exact h.symm
      · rw [if_neg htr] at h
        rw [if_neg htr]
        injection h with h
        rw [← h, emitDocs_nil]

theorem trim_replicate49 : trim (List.replicate 49 'a') = List.replicate 49 'a' := by
  unfold trim
  rw [dropWhile_replicate_a, List.reverse_replicate, dropWhile_replicate_a,
    List.reverse_replicate]

theorem emitDocs_mixed :
    emitDocs mixedItem [mixedChunk0, List.replicate 49 'a'] =
      [⟨mixedChunk0, Val.vstr "Unknown".toList, Val.vstr [], 0, 2⟩] := by
  have h0 : ¬ (trim mixedChunk0).length < 50 := by
    rw [trim_mixedChunk0]
    simp [mixedChunk0]
  have h1 : (trim (List.replicate 49 'a')).length < 50 := by
    rw [trim_replicate49]
    simp
  unfold emitDocs
  rw [show ([mixedChunk0, List.replicate 49 'a'].enum)
        = [(0, mixedChunk0), (1, List.replicate 49 'a')] from rfl]
  simp only [List.filterMap_cons, List.filterMap_nil]
  rw [if_neg h0, if_pos h1]
  rfl

theorem itemDocs_mixed :
    itemDocs mixedItem =
      some [⟨mixedChunk0, Val.vstr "Unknown".toList, Val.vstr [], 0, 2⟩] := by
  have hres : resolveText mixedItem = some (Val.vstr mixedText) := rfl
  have htr : pyTruthy (Val.vstr mixedText) = true := by
    unfold pyTruthy mixedText
    simp
  rw [itemDocs_vstr hres, if_pos htr]
  rw [preprocess_mixedText, mixedNorm_length]
  rw [show (501 : Nat) + 1 = 502 from by norm_num]
  rw [chunkText_mixed]
  simp only [Option.getD_some]
  rw [emitDocs_mixed]

theorem create_documents_mixed :
    create_documents [mixedItem] =
      some [⟨mixedChunk0, Val.vstr "Unknown".toList, Val.vstr [], 0, 2⟩] := by
  unfold create_documents
  rw [itemDocs_mixed]
  rfl

/-! ## The window with punctuation exactly at 70 percent is not snapped -/

theorem punctAt70_length : punctAt70.length = 601 := by
  simp [punctAt70]

theorem window_punctAt70 :
    pySlice punctAt70 0 ((0 : Int) + ((500 : Nat) : Int)) =
      List.replicate 350 'a' ++ '.' :: List.replicate 149 'a' := by
  have hlen : (punctAt70.length : Int) = 601 := by
    rw [punctAt70_length]
    norm_num
  have h500 : ((0 : Int) + ((500 : Nat) : Int)) = ((500 : Nat) : Int) := by
    norm_num
  rw [h500, pySlice_zero_take punctAt70 500 (by omega)]
  rw [punctAt70, List.take_append_eq_append_take, List.take_replicate,
    List.length_replicate]
  norm_num

theorem carve_punctAt70 :
    carve punctAt70 0 500 =
      (List.replicate 350 'a' ++ '.' :: List.replicate 149 'a', 500) := by
  have hlen : (punctAt70.length : Int) = 601 := by
    rw [punctAt70_length]
    norm_num
  have hlt : (0 : Int) + ((500 : Nat) : Int) < (punctAt70.length : Int) := by omega
  have hlp : lastPunct (pySlice punctAt70 0 ((0 : Int) + ((500 : Nat) : Int))) = 350 := by
    rw [window_punctAt70]
    exact lastPunct_aaa_dot 350 149
  have h := @carve_nosnap punctAt70 0 500 hlt
    (by rw [hlp]; norm_num)
  rw [window_punctAt70] at h
  rw [h]
  norm_num

/-! ## The window of punctAt351: its punctuation sits strictly past 70 percent -/

theorem get?_replicate_eq (a : Char) (n i : Nat) :
    (List.replicate n a).get? i = if i < n then some a else none := by
  rw [List.get?_eq_getElem?, List.getElem?_replicate]

theorem punctAt351_length : punctAt351.length = 601 := by
  simp [punctAt351]

theorem window_punctAt351 :
    pySlice punctAt351 0 ((0 : Int) + ((500 : Nat) : Int)) =
      List.replicate 351 'a' ++ '.' :: List.replicate 148 'a' := by
  have hlen : (punctAt351.length : Int) = 601 := by
    rw [punctAt351_length]
    norm_num
  have h500 : ((0 : Int) + ((500 : Nat) : Int)) = ((500 : Nat) : Int) := by
    norm_num
  rw [h500, pySlice_zero_take punctAt351 500 (by omega)]
  rw [punctAt351, List.take_append_eq_append_take, List.take_replicate,
    List.length_replicate]
  norm_num

theorem window351_punct_at :
    (((List.replicate 351 'a' ++ '.' :: List.replicate 148 'a').get? 351).any
      sentencePunct) = true := by
  rw [List.get?_append_right (by simp)]
  rw [List.length_replicate, Nat.sub_self]
  rfl

theorem window351_no_late_punct : ∀ j : Nat, 351 < j →
    ((((List.replicate 351 'a' ++ '.' :: List.replicate 148 'a').get? j).all
      fun c => !sentencePunct c) = true) := by
  intro j hj
  rw [List.get?_append_right (by rw [List.length_replicate]; omega)]
  rw [List.length_replicate]
  rw [show j - 351 = (j - 352) + 1 by omega]
  rw [show (('.' :: List.replicate 148 'a').get? ((j - 352) + 1))
        = (List.replicate 148 'a').get? (j - 352) from rfl]
  rw [get?_replicate_eq]
  split
  · rfl
  · rfl

/-! ## Claims -/

/-- Claim C1 (counterexample): create_documents applied to a record whose
normalized body carves into one 500-character chunk and one chunk whose
stripped length is 49 emits exactly one unit, and that unit carries
`total_chunks = 2` — the count of ALL carved chunks — although only one
chunk survived, so `chunk_count` is not the number of surviving chunks. -/
theorem C1_counterexample :
    (create_documents [mixedItem]).map (List.map fun d => (d.chunk_id, d.total_chunks))
      = some [(0, 2)] := by
  rw [create_documents_mixed]
  rfl

/-- Claim C1 (amended): each unit emitted by create_documents carries as
`chunk_id` its 0-based position in the chunker's FULL output list for
that record (its content is the chunk stored at that index), and as
`total_chunks` the length of that full list — both counts include the
chunks later discarded for being shorter than 50 characters. -/
theorem C1_theorem :
    ∀ (item : Item) (docs : List PyDoc), itemDocs item = some docs →
      ∀ d ∈ docs, (docChunks item)[d.chunk_id]? = some d.content ∧
        d.total_chunks = (docChunks item).length := by
  intro item docs h d hd
  rw [itemDocs_eq h] at hd
  have hm := mem_emitDocs hd
  exact ⟨hm.1, hm.2.1⟩

/-- Claim C1 (witness): the amended theorem applied to a one-record
dataset with a 60-character body. -/
theorem C1_witness :
    (docChunks [("text", Val.vstr (List.replicate 60 'a'))])[(0 : Nat)]?
        = some (List.replicate 60 'a') ∧
      (1 : Nat) = (docChunks [("text", Val.vstr (List.replicate 60 'a'))]).length := by
  have h := C1_theorem [("text", Val.vstr (List.replicate 60 'a'))]
    [⟨List.replicate 60 'a', Val.vstr "Unknown".toList, Val.vstr [], 0, 1⟩]
    (by decide)
    ⟨List.replicate 60 'a', Val.vstr "Unknown".toList, Val.vstr [], 0, 1⟩
    (List.mem_singleton.mpr rfl)
  exact h

/-- Claim C2 (counterexample): preprocess_text is not idempotent — on
"a @ b" the removal of '@' creates a double space, which only a second
application collapses. -/
theorem C2_counterexample :
    preprocess_text (preprocess_text ['a', ' ', '@', ' ', 'b'])
      ≠ preprocess_text ['a', ' ', '@', ' ', 'b'] := by decide

/-- Claim C2 (amended): preprocess_text is idempotent on every string
whose characters all lie in the allowed class (so the removal step
deletes nothing and cannot create new whitespace runs). -/
theorem C2_theorem : ∀ t : List Char, (∀ c ∈ t, isAllowedChar c = true) →
    preprocess_text (preprocess_text t) = preprocess_text t := by
  intro t h
  have hfil1 : (collapseWs t).filter isAllowedChar = collapseWs t := by
    rw [List.filter_eq_self]
    intro c hc
    rcases collapseWs_mem t c hc with h' | h'
    · rw [h']
      decide
    · exact h c h'
  have hpre : preprocess_text t = trim (collapseWs t) := by
    unfold preprocess_text
    rw [hfil1]
  have hXn : wsNormal (collapseWs t) := collapseWs_wsNormal t
  have htXn : wsNormal (trim (collapseWs t)) := wsNormal_trim hXn
  have hcoll : collapseWs (trim (collapseWs t)) = trim (collapseWs t) :=
    collapseWs_eq_self _ htXn
  have hfil2 : (collapseWs (trim (collapseWs t))).filter isAllowedChar
      = collapseWs (trim (collapseWs t)) := by
    rw [hcoll, List.filter_eq_self]
    intro c hc
    rcases collapseWs_mem t c (mem_trim hc) with h' | h'
    · rw [h']
      decide
    · exact h c h'
  rw [hpre]
  show preprocess_text (trim (collapseWs t)) = trim (collapseWs t)
  unfold preprocess_text
  rw [hfil2, hcoll, trim_trim]

/-- Claim C2 (witness): the amended idempotence applied to the
all-allowed string "a  b". -/
theorem C2_witness :
    preprocess_text (preprocess_text ['a', ' ', ' ', 'b'])
      = preprocess_text ['a', ' ', ' ', 'b'] :=
  C2_theorem ['a', ' ', ' ', 'b'] (by decide)

/-- Claim C3: with overlap ≥ window (here window 3, overlap 3) on a text
longer than the window, chunk_text raises no configuration error and
never terminates — for every iteration bound the loop is still running.
The claim says such a call must fail fast at configuration time. -/
theorem C3_theorem : chunkNeverReturns (List.replicate 4 'a') 3 3 :=
  stuck_of_overlap_ge le_rfl (by simp)

/-- Claim C4 (counterexample): with the default, valid configuration
window 500 > overlap 50 > 0, the 501-space text terminates but yields
two EMPTY chunks (the claim says all chunks are non-empty); and with the
valid configuration window 100 > overlap 99 > 0, cycleText makes the
cursor cycle and chunk_text never terminates at all. -/
theorem C4_counterexample :
    chunk_text spaces501 500 50 502 = some [[], []] ∧
      chunkNeverReturns cycleText 100 99 :=
  ⟨chunkText_spaces, cycleText_never⟩

/-- Claim C4 (amended): with the default configuration window = 500 and
overlap = 50 — the one create_documents uses — chunk_text terminates on
every text within length + 1 loop iterations and returns a finite chunk
sequence (whose chunks may however be empty after stripping). -/
theorem C4_theorem : ∀ t : List Char,
    ∃ r, chunk_text t 500 50 (t.length + 1) = some r := by
  intro t
  by_cases h : t.length ≤ 500
  · refine ⟨[t], ?_⟩
    unfold chunk_text
    rw [if_pos h]
  · unfold chunk_text
    rw [if_neg h]
    exact chunk_term_aux t t.length 0 [] (by omega)

/-- Claim C5 (counterexample): when retrieval succeeds with one document
and the generation call raises, query returns the apology answer with an
EMPTY documents list — the retrieved document is discarded, not
returned as the claim states. -/
theorem C5_counterexample :
    (query () (Except.ok [⟨"c", some "t", some "u", some ()⟩])
        (fun _ => Except.error "boom") true "q").documents = [] ∧
      (query () (Except.ok [⟨"c", some "t", some "u", some ()⟩])
        (fun _ => Except.error "boom") true "q").answer
        = "Üzgünüm, sorunuzu yanıtlayamadım. Hata: boom" :=
  ⟨rfl, rfl⟩

/-- Claim C5 (amended): when retrieval succeeds but the LLM generation
step raises, query catches the exception and returns the localized
apology message carrying the error text as answer, the EMPTY document
list (the retrieved documents are discarded), and the unchanged
question. -/
theorem C5_theorem : ∀ (σ : Type) (z : σ) (docs : List (HsDoc σ)) (e q : String),
    query z (Except.ok docs) (fun _ => Except.error e) true q
      = ⟨errMsg e, [], q⟩ := by
  intro σ z docs e q
  rfl

/-- Claim C6 (counterexample): a record whose `text` field is present
but EMPTY while its `content` field holds usable text is skipped (zero
units), although the same content field alone yields one unit — the
if/elif chain keys on presence, not emptiness. -/
theorem C6_counterexample :
    itemDocs [("text", Val.vstr []), ("content", Val.vstr (List.replicate 60 'a'))]
        = some [] ∧
      (itemDocs [("content", Val.vstr (List.replicate 60 'a'))]).map List.length
        = some 1 := by
  constructor
  · decide
  · decide

/-- Claim C6 (amended): body-text resolution takes the value of the
first PRESENT key in the priority chain — when `text` is present its
value is resolved regardless of the other fields and of its emptiness —
and a record whose resolved value is falsy is skipped (yields no units)
even when later known fields hold usable text. -/
theorem C6_theorem : ∀ (item : Item) (v : Val), getField item "text" = some v →
    resolveText item = some v ∧ (pyTruthy v = false → itemDocs item = some []) := by
  intro item v h
  have hres : resolveText item = some v := by
    unfold resolveText
    rw [h]
  refine ⟨hres, fun hv => ?_⟩
  cases v with
  | vstr s =>
    rw [itemDocs_vstr hres, if_neg (by rw [hv]; exact Bool.false_ne_true)]
  | vother t =>
    rw [itemDocs_vother hres]
    have ht : t = false := hv
    rw [ht, if_neg (by exact Bool.false_ne_true)]

/-- Claim C6 (witness): the amended theorem applied to a record with an
empty `text` field followed by a long `content` field. -/
theorem C6_witness :
    resolveText [("text", Val.vstr []), ("content", Val.vstr (List.replicate 101 'a'))]
        = some (Val.vstr []) ∧
      itemDocs [("text", Val.vstr []), ("content", Val.vstr (List.replicate 101 'a'))]
        = some [] := by
  have h := C6_theorem
    [("text", Val.vstr []), ("content", Val.vstr (List.replicate 101 'a'))]
    (Val.vstr []) (by decide)
  exact ⟨h.1, h.2 (by decide)⟩

/-- Claim C7 (counterexample): for the 2-character text " a" (length ≤
window), chunk_text returns the text UNCHANGED, not trimmed: the result
is [" a"] while the claim demands [trim " a"] = ["a"]. -/
theorem C7_counterexample :
    chunk_text [' ', 'a'] 500 50 0 = some [[' ', 'a']] ∧
      chunk_text [' ', 'a'] 500 50 0 ≠ some [trim [' ', 'a']] := by
  constructor
  · decide
  · decide

/-- Claim C7 (amended): for every text no longer than the window,
chunk_text returns exactly the single-element sequence holding the text
UNCHANGED (not trimmed; the two agree only when the text is already
trimmed, as is the case for the normalized input create_documents
feeds it). -/
theorem C7_theorem : ∀ (t : List Char) (cs ov fuel : Nat), t.length ≤ cs →
    chunk_text t cs ov fuel = some [t] := by
  intro t cs ov fuel h
  unfold chunk_text
  rw [if_pos h]

/-- Claim C7 (witness): the amended theorem at "ab" with the default
parameters. -/
theorem C7_witness : chunk_text ['a', 'b'] 500 50 7 = some [['a', 'b']] :=
  C7_theorem ['a', 'b'] 500 50 7 (by decide)

/-- Claim C8 (counterexample): in the first window of punctAt70 the
rightmost sentence punctuation sits at index 350, which is AT 70 percent
of the window length 500 (10·350 ≥ 7·500), yet carve keeps the full
500-character window and the cursor moves from 500 — the chunk is not
truncated to end just after the punctuation mark as the claim
states. -/
theorem C8_counterexample :
    carve punctAt70 0 500
        = (List.replicate 350 'a' ++ '.' :: List.replicate 149 'a', 500) ∧
      lastPunct (List.replicate 350 'a' ++ '.' :: List.replicate 149 'a') = 350 ∧
      (List.replicate 350 'a' ++ '.' :: List.replicate 149 'a').length = 500 ∧
      7 * (500 : Int) ≤ 10 * 350 := by
  refine ⟨carve_punctAt70, lastPunct_aaa_dot 350 149, by simp, by norm_num⟩

/-- Claim C8 (amended): for a non-final window at the default window
size 500 — the only size the pipeline uses, and one where the IEEE
double 500 * 0.7 is exactly 350.0 — a chunk whose rightmost sentence
punctuation sits at index i is truncated to end just after that mark
(and the cursor advances from the truncated end) exactly when i is
STRICTLY greater than 350, that is, strictly past 70 percent of the
window; when i ≤ 350 — including a mark exactly at 70 percent — the
full fixed-length window is kept and the cursor advances from
start + 500. -/
theorem C8_theorem : ∀ (text : List Char) (start : Int) (i : Nat),
    start + ((500 : Nat) : Int) < text.length →
    ((pySlice text start (start + ((500 : Nat) : Int))).get? i).any sentencePunct
      = true →
    (∀ j : Nat, j < (pySlice text start (start + ((500 : Nat) : Int))).length →
      i < j →
      (((pySlice text start (start + ((500 : Nat) : Int))).get? j).all
        fun c => !sentencePunct c) = true) →
    (350 < i →
      carve text start 500 =
        ((pySlice text start (start + ((500 : Nat) : Int))).take (i + 1),
          start + i + 1)) ∧
    (i ≤ 350 →
      carve text start 500 =
        (pySlice text start (start + ((500 : Nat) : Int)),
          start + ((500 : Nat) : Int))) := by
  intro text start i hwin hi hj
  set w := pySlice text start (start + ((500 : Nat) : Int)) with hw
  obtain ⟨c, hci, hcp⟩ : ∃ c, w.get? i = some c ∧ sentencePunct c = true := by
    cases hgc : w.get? i with
    | none => rw [hgc] at hi; cases hi
    | some c => exact ⟨c, rfl, by rw [hgc] at hi; exact hi⟩
  have hnol : ∀ (ch : Char), sentencePunct ch = true → rfind w ch ≤ (i : Int) := by
    intro ch hch
    apply rfind_le_of_no_later (by omega)
    intro j hij hgj
    by_cases hjl : j < w.length
    · have hall := hj j hjl (by exact_mod_cast hij)
      rw [hgj] at hall
      simp only [Option.all_some, Bool.not_eq_true'] at hall
      rw [hall] at hch
      cases hch
    · rw [List.get?_eq_none.mpr (by omega)] at hgj
      cases hgj
  have hup : lastPunct w ≤ (i : Int) := by
    unfold lastPunct
    exact max_le (hnol '.' (by decide)) (max_le (hnol '?' (by decide))
      (hnol '!' (by decide)))
  have hlow : (i : Int) ≤ lastPunct w := by
    have hri := le_rfind_of_get? hci
    unfold sentencePunct at hcp
    simp only [Bool.or_eq_true, decide_eq_true_eq] at hcp
    unfold lastPunct
    rcases hcp with (h' | h') | h'
    · subst h'
      exact le_trans hri (le_max_left _ _)
    · subst h'
      exact le_trans hri (le_trans (le_max_left _ _) (le_max_right _ _))
    · subst h'
      exact le_trans hri (le_trans (le_max_right _ _) (le_max_right _ _))
  have hlp : lastPunct w = (i : Int) := le_antisymm hup hlow
  constructor
  · intro hgt
    have h := @carve_snap text start 500 hwin
      (by rw [← hw, hlp]; omega)
    rw [← hw, hlp] at h
    rw [h]
    rw [show ((i : Int) + 1).toNat = i + 1 by omega]
  · intro hle
    exact @carve_nosnap text start 500 hwin
      (by rw [← hw, hlp]; omega)

/-- Claim C8 (witness): the amended theorem on punctAt351, whose first
window holds its rightmost period at index 351, strictly past 70
percent of 500 — the chunk is cut to 352 characters and the cursor
moves to 352. -/
theorem C8_witness :
    carve punctAt351 0 500
      = ((pySlice punctAt351 0 ((0 : Int) + ((500 : Nat) : Int))).take 352, 352) := by
  have h := C8_theorem punctAt351 0 351
    (by rw [punctAt351_length]; norm_num)
    (by rw [window_punctAt351]; exact window351_punct_at)
    (by
      intro j hj1 hj2
      rw [window_punctAt351]
      exact window351_no_late_punct j hj2)
  exact h.1 (by norm_num)

/-- Claim C9: every unit create_documents emits has a content whose
trimmed length is at least 50 (the sub-50 chunks are filtered out), and
a record whose resolved body normalizes to fewer than 50 characters
contributes zero units. -/
theorem C9_theorem :
    (∀ (data : List Item) (docs : List PyDoc), create_documents data = some docs →
      ∀ d ∈ docs, 50 ≤ (trim d.content).length) ∧
    (∀ (item : Item) (ds : List PyDoc) (s : List Char),
      itemDocs item = some ds → resolveText item = some (.vstr s) →
      (preprocess_text s).length < 50 → ds = []) := by
  constructor
  · intro data
    induction data with
    | nil =>
      intro docs h d hd
      injection h with h
      rw [← h] at hd
      cases hd
    | cons item rest ih =>
      intro docs h d hd
      have hcons : create_documents (item :: rest) = (itemDocs item).bind fun ds =>
          (create_documents rest).bind fun rs => some (ds ++ rs) := rfl
      rw [hcons] at h
      cases hitem : itemDocs item with
      | none =>
        rw [hitem] at h
        cases h
      | some ds =>
        rw [hitem] at h
        simp only [Option.some_bind] at h
        cases hrest : create_documents rest with
        | none =>
          rw [hrest] at h
          cases h
        | some rs =>
          rw [hrest] at h
          simp only [Option.some_bind] at h
          injection h with h
          rw [← h, List.mem_append] at hd
          rcases hd with hd | hd
          · rw [itemDocs_eq hitem] at hd
            exact (mem_emitDocs hd).2.2
          · exact ih rs hrest d hd
  · intro item ds s hds hres hlen
    rw [itemDocs_vstr hres] at hds
    by_cases htr : pyTruthy (Val.vstr s) = true
    · rw [if_pos htr] at hds
      have hshort : (preprocess_text s).length ≤ 500 := by omega
      rw [show chunk_text (preprocess_text s) 500 50 ((preprocess_text s).length + 1)
            = some [preprocess_text s] from by unfold chunk_text; rw [if_pos hshort]]
        at hds
      simp only [Option.getD_some] at hds
      injection hds with hds
      rw [← hds]
      unfold emitDocs
      rw [show ([preprocess_text s].enum) = [(0, preprocess_text s)] from rfl]
      simp only [List.filterMap_cons, List.filterMap_nil]
      have htl := trim_length_le (preprocess_text s)
      rw [if_pos (by omega : (trim (preprocess_text s)).length < 50)]
    · rw [if_neg htr] at hds
      injection hds with hds
      exact hds.symm

/-- Claim C9 (witness): both parts applied to concrete records — a
60-character body whose single emitted unit has trimmed length ≥ 50, and
a one-space body that normalizes to the empty string and contributes
zero units. -/
theorem C9_witness :
    50 ≤ (trim (List.replicate 60 'a')).length ∧ (([] : List PyDoc) = []) := by
  constructor
  · exact C9_theorem.1 [[("text", Val.vstr (List.replicate 60 'a'))]]
      [⟨List.replicate 60 'a', Val.vstr "Unknown".toList, Val.vstr [], 0, 1⟩]
      (by decide)
      ⟨List.replicate 60 'a', Val.vstr "Unknown".toList, Val.vstr [], 0, 1⟩
      (List.mem_singleton.mpr rfl)
  · exact C9_theorem.2 [("text", Val.vstr [' '])] [] [' ']
      (by decide) (by decide) (by decide)

/-- Claim C10: query is a total function — it returns a record with
exactly the fields answer, documents and query on every path — whose
query field always equals the input question unchanged, and whose
documents field is either the empty list (the catch-all error path) or
exactly the formatted retrieved documents. -/
theorem C10_theorem : ∀ (σ : Type) (z : σ) (run : Except String (List (HsDoc σ)))
    (generate : String → Except String String) (hasModel : Bool) (question : String),
    (query z run generate hasModel question).query = question ∧
    ((query z run generate hasModel question).documents = [] ∨
      ∃ docs, run = Except.ok docs ∧
        (query z run generate hasModel question).documents
          = docs.map (formatDoc z)) := by
  intro σ z run gen hm q
  cases run with
  | error e => exact ⟨rfl, Or.inl rfl⟩
  | ok docs =>
    cases hm with
    | false => exact ⟨rfl, Or.inr ⟨docs, rfl, rfl⟩⟩
    | true =>
      have h1 : query z (Except.ok docs) gen true q
          = match (gen (buildPrompt q (docs.map (formatDoc z)))).bind
              (fun a => (Except.ok (QueryResult.mk a (docs.map (formatDoc z)) q)
                : Except String (QueryResult σ))) with
            | .ok r => r
            | .error e => ⟨errMsg e, [], q⟩ := rfl
      cases hgen : gen (buildPrompt q (docs.map (formatDoc z))) with
      | error e =>
        rw [hgen] at h1
        rw [h1]
        exact ⟨rfl, Or.inl rfl⟩
      | ok a =>
        rw [hgen] at h1
        rw [h1]
        exact ⟨rfl, Or.inr ⟨docs, rfl, rfl⟩⟩

end SuperLig
